import Mathlib

/-!
Shallow embedding of the MovieLinkBD resolution core
(`movielinkbd_api.py`, `analyze_tv_mapping.py`): title normalization,
similarity scoring, candidate selection, search-cache TTL logic,
gate-page final-URL resolution, and cache keys.

Strings are modelled as `List Char`; Python machine floats used for
scores/timestamps are modelled as exact rationals (all constants in the
code are short decimal literals).  Regex behaviour is embedded per
pattern with Python `re` semantics (leftmost match, alternation order,
`\b` word boundaries, non-overlapping `re.sub`).
-/

/-- Python regex `\s` / `str.strip` whitespace class (ASCII range, which is
the only whitespace the inputs of this program contain). -/
def pythonSpace (c : Char) : Bool :=
  c = ' ' || c = '\t' || c = '\n' || c = '\r' || c = '\x0b' || c = '\x0c'

/-- Python regex word character (`\w`) over the alphabet this embedding
covers: ASCII letters/digits/underscore plus the Bengali and Devanagari
blocks appearing in the noise-word list. -/
def isWordChar (c : Char) : Bool :=
  (('a' ≤ c && c ≤ 'z') || ('A' ≤ c && c ≤ 'Z') || ('0' ≤ c && c ≤ '9') || c = '_')
  || (0x0900 ≤ c.toNat && c.toNat ≤ 0x097F)
  || (0x0980 ≤ c.toNat && c.toNat ≤ 0x09FF)

def isDigitChar (c : Char) : Bool := '0' ≤ c && c ≤ '9'

def isLowerAlnum (c : Char) : Bool := ('a' ≤ c && c ≤ 'z') || ('0' ≤ c && c ≤ '9')

/-- `str.lower()` on one character, restricted to ASCII (every non-ASCII
character is discarded later in the pipeline, so ASCII lowering is the
behaviour-relevant part). -/
def pyLowerChar (c : Char) : Char :=
  if 'A' ≤ c && c ≤ 'Z' then Char.ofNat (c.toNat + 32) else c

def pyLower (l : List Char) : List Char := l.map pyLowerChar

/-- Python `pat in s` substring test on char lists. -/
def containsSub : List Char → List Char → Bool
  | _, [] => true
  | [], _ :: _ => false
  | c :: rest, p :: ps => (p :: ps).isPrefixOf (c :: rest) || containsSub rest (p :: ps)

/-- Left strip: `str.lstrip()`. -/
def stripL (l : List Char) : List Char := l.dropWhile pythonSpace

/-- `str.strip()`: drop whitespace from both ends. -/
def pyStrip (l : List Char) : List Char := (stripL (stripL l).reverse).reverse

/-- Worker for whitespace collapsing; `inRun` records whether the previous
input character was whitespace (in which case the current run has already
emitted its single space). -/
def collapseGo : Bool → List Char → List Char
  | _, [] => []
  | inRun, c :: rest =>
    if pythonSpace c then
      if inRun then collapseGo true rest else ' ' :: collapseGo true rest
    else c :: collapseGo false rest

/-- `re.sub(r"\s+", " ", s)`: collapse each maximal whitespace run to one
space. -/
def collapseSpaces (l : List Char) : List Char := collapseGo false l

def punctKeep (c : Char) : Bool := isLowerAlnum c || pythonSpace c

/-- One step of `re.sub(r"[^a-z0-9\s]", " ", s)`. -/
def punctChar (c : Char) : Char := if punctKeep c then c else ' '

def punctMap (l : List Char) : List Char := l.map punctChar

/-- `re.sub(r"\(\d{4}\)", "", s)`: delete every parenthesized 4-digit year. -/
def yearSub : List Char → List Char
  | [] => []
  | c :: d1 :: d2 :: d3 :: d4 :: cp :: rem =>
    if c = '(' && isDigitChar d1 && isDigitChar d2 && isDigitChar d3 &&
        isDigitChar d4 && cp = ')'
    then yearSub rem
    else c :: yearSub (d1 :: d2 :: d3 :: d4 :: cp :: rem)
  | c :: rest => c :: yearSub rest

/-- Try `lit` then (optionally) `\s*` then `\d+` then a trailing `\b` at the
head of `l`; return the matched length.  This is one alternative of the
season/episode-tag pattern `\b(season\s*\d+|s\d+|ep\s*\d+|e\d+)\b`; greedy
`\d+` with a trailing `\b` matches exactly a maximal digit run followed by a
non-word character or the end. -/
def litSpacesDigitsAt (lit : List Char) (allowSpaces : Bool) (l : List Char) :
    Option Nat :=
  if lit.isPrefixOf l then
    let r1 := l.drop lit.length
    let sp := if allowSpaces then (r1.takeWhile pythonSpace).length else 0
    let r2 := r1.drop sp
    let ds := (r2.takeWhile isDigitChar).length
    if ds = 0 then none
    else
      match r2.drop ds with
      | [] => some (lit.length + sp + ds)
      | c :: _ => if isWordChar c then none else some (lit.length + sp + ds)
  else none

/-- The alternation `season\s*\d+|s\d+|ep\s*\d+|e\d+` (with trailing `\b`)
tried at the head of the list, in Python's left-to-right alternative order. -/
def seasonAltAt (l : List Char) : Option Nat :=
  match litSpacesDigitsAt "season".data true l with
  | some n => some n
  | none =>
    match litSpacesDigitsAt "s".data false l with
    | some n => some n
    | none =>
      match litSpacesDigitsAt "ep".data true l with
      | some n => some n
      | none => litSpacesDigitsAt "e".data false l

/-- Generic `re.sub(pattern, "", s)` scanner for a pattern of the form
`\b(...)\b` whose matches start and end with word characters.  `matchAt`
tries the pattern (with its trailing `\b`) at the head of the list and
returns the matched length (≥ 1).  `prevW` records whether the character
before the current position is a word character (the leading `\b`).  After
a removed match, scanning resumes just past it with `prevW = true`, exactly
like Python's non-overlapping `re.sub`.  `fuel` bounds the recursion; it is
always called with `fuel ≥ l.length`, which makes it total. -/
def subScanF (matchAt : List Char → Option Nat) : Nat → Bool → List Char → List Char
  | 0, _, _ => []
  | _ + 1, _, [] => []
  | fuel + 1, prevW, c :: rest =>
    if prevW then c :: subScanF matchAt fuel (isWordChar c) rest
    else
      match matchAt (c :: rest) with
      | some n => subScanF matchAt fuel true (rest.drop (n - 1))
      | none => c :: subScanF matchAt fuel (isWordChar c) rest

/-- `re.sub(r"\b(season\s*\d+|s\d+|ep\s*\d+|e\d+)\b", "", s)`. -/
def seasonSub (l : List Char) : List Char := subScanF seasonAltAt l.length false l

/-- Try the literal noise word `w` with a trailing `\b` at the head of `l`;
return the matched length. -/
def noiseWordAt (w l : List Char) : Option Nat :=
  if w ≠ [] && w.isPrefixOf l then
    match l.drop w.length with
    | [] => some w.length
    | c :: _ => if isWordChar c then none else some w.length
  else none

/-- `re.sub(rf"\b{re.escape(w)}\b", "", s)` for one literal noise word `w`
(all noise words start and end with word characters). -/
def noiseSub (w l : List Char) : List Char := subScanF (noiseWordAt w) l.length false l

/-- The fixed noise-word denylist, in the order the code applies it. -/
def noiseWords : List (List Char) :=
  ["bangla dubbed", "bangla", "বাংলা", "bd", "hindi dubbed", "hindi", "हिंदी",
   "dual audio", "english dubbed", "english", "web-dl", "webdl", "webrip",
   "hdrip", "brrip", "dvdrip", "rip", "480p", "720p", "1080p", "4k", "uhd",
   "hd", "sd"].map String.data

def noiseFold (l : List Char) : List Char :=
  noiseWords.foldl (fun s w => noiseSub w s) l

/-- `normalize_title` (identical in `movielinkbd_api.py` and
`analyze_tv_mapping.py`): lowercase+strip, drop parenthesized years, drop
season/episode tags, drop noise words, replace non-`[a-z0-9\s]` by spaces,
collapse whitespace, strip. -/
def normalizeChars (l : List Char) : List Char :=
  pyStrip (collapseSpaces (punctMap (noiseFold (seasonSub (yearSub (pyStrip (pyLower l)))))))

def normalize_title (s : String) : String := ⟨normalizeChars s.data⟩

/-- `base_title`: text before the first `:`, `-` or `(`, stripped. -/
def baseSplitChar (c : Char) : Bool := c = ':' || c = '-' || c = '('

def base_title (s : String) : String :=
  ⟨pyStrip (s.data.takeWhile (fun c => !baseSplitChar c))⟩

example : normalize_title "Money Heist (2017) Season 3 Bangla Dubbed 720p" = "money heist" := by decide

example : normalize_title "Breaking Bad Season 1" = "breaking bad" := by decide

example : base_title "Money Heist: Korea" = "Money Heist" := by decide

example : normalize_title "season-3" = "season 3" := by decide

example : normalize_title (normalize_title "season-3") = "" := by decide

/-!
### Executable rational arithmetic

The program's float arithmetic is modelled exactly over `ℚ`.  The standard
`Rat.add`/`Rat.sub` are `@[irreducible]`, which blocks kernel evaluation of
concrete scores, so the embedding computes through `mkRat` instead; the
bridge lemmas below identify these operations with `+`, `-` and `max` for
algebraic reasoning.
-/

def qadd (a b : ℚ) : ℚ := mkRat (a.num * b.den + b.num * a.den) (a.den * b.den)

def qsub (a b : ℚ) : ℚ := mkRat (a.num * b.den - b.num * a.den) (a.den * b.den)

/-- Python `max(a, b)`. -/
def qmax (a b : ℚ) : ℚ := if a ≤ b then b else a

theorem qadd_eq_add (a b : ℚ) : qadd a b = a + b := by
  unfold qadd
  rw [Rat.mkRat_eq_div]
  push_cast
  conv_rhs => rw [← Rat.num_div_den a, ← Rat.num_div_den b]
  rw [div_add_div _ _ (by exact_mod_cast a.den_nz) (by exact_mod_cast b.den_nz)]
  ring_nf

theorem qsub_eq_sub (a b : ℚ) : qsub a b = a - b := by
  unfold qsub
  rw [Rat.mkRat_eq_div]
  push_cast
  conv_rhs => rw [← Rat.num_div_den a, ← Rat.num_div_den b]
  rw [div_sub_div _ _ (by exact_mod_cast a.den_nz) (by exact_mod_cast b.den_nz)]
  ring_nf

theorem qmax_eq_max (a b : ℚ) : qmax a b = max a b := (max_def a b).symm

/-!
### `difflib.SequenceMatcher` (CPython stdlib), as used by
`resolve_tmdb_tv_to_mlbd_url`: `SequenceMatcher(None, a, b).ratio()`.
No junk function is passed and every compared string is far below the 200
character autojunk threshold, so the junk machinery is vacuous (`isbjunk`
is constantly false).
-/

/-- `b2j`: for each character, the ascending list of its indices in `b`. -/
def b2j (b : List Char) (c : Char) : List Nat :=
  (b.enum.filter (fun p => p.2 = c)).map (fun p => p.1)

def lookupD (m : List (Nat × Nat)) (k : Nat) : Nat :=
  match m.lookup k with
  | some v => v
  | none => 0

/-- State of `find_longest_match`'s main loop: the `j2len` dict of the
previous row plus the best block found so far. -/
structure FlmState where
  j2len : List (Nat × Nat)
  besti : Nat
  bestj : Nat
  bestsize : Nat
deriving DecidableEq

/-- One row (fixed `i`) of the `find_longest_match` dynamic program:
for each `j` with `a[i] = b[j]`, `blo ≤ j < bhi`, the common-suffix length
`k = j2len.get(j-1, 0) + 1` is recorded, and the best block is updated when
`k` is strictly larger (ties keep the earlier block). -/
def flmRow (blo bhi i : Nat) (js : List Nat) (st : FlmState) : FlmState :=
  js.foldl
    (fun acc j =>
      if blo ≤ j && j < bhi then
        let k := (if j = 0 then 0 else lookupD st.j2len (j - 1)) + 1
        { acc with
          j2len := (j, k) :: acc.j2len
          besti := if k > acc.bestsize then i + 1 - k else acc.besti
          bestj := if k > acc.bestsize then j + 1 - k else acc.bestj
          bestsize := if k > acc.bestsize then k else acc.bestsize }
      else acc)
    { st with j2len := [] }

/-- The dynamic-programming part of `find_longest_match(alo, ahi, blo, bhi)`. -/
def flmLoop (a b : List Char) (alo ahi blo bhi : Nat) : Nat × Nat × Nat :=
  let final :=
    (List.range' alo (ahi - alo)).foldl
      (fun (st : FlmState) i => flmRow blo bhi i (b2j b (a.getD i ' ')) st)
      ⟨[], alo, blo, 0⟩
  (final.besti, final.bestj, final.bestsize)

/-- The backward extension loop of `find_longest_match` (the non-junk one;
the junk-guarded loops never fire since `isbjunk` is constantly false). -/
def extendBack (a b : List Char) (alo blo : Nat) :
    Nat → Nat × Nat × Nat → Nat × Nat × Nat
  | 0, st => st
  | fuel + 1, (besti, bestj, bestsize) =>
    if besti > alo && bestj > blo then
      match a.get? (besti - 1), b.get? (bestj - 1) with
      | some x, some y =>
        if x = y then
          extendBack a b alo blo fuel (besti - 1, bestj - 1, bestsize + 1)
        else (besti, bestj, bestsize)
      | _, _ => (besti, bestj, bestsize)
    else (besti, bestj, bestsize)

/-- The forward extension loop of `find_longest_match`. -/
def extendFwd (a b : List Char) (ahi bhi : Nat) :
    Nat → Nat × Nat × Nat → Nat × Nat × Nat
  | 0, st => st
  | fuel + 1, (besti, bestj, bestsize) =>
    if besti + bestsize < ahi && bestj + bestsize < bhi then
      match a.get? (besti + bestsize), b.get? (bestj + bestsize) with
      | some x, some y =>
        if x = y then
          extendFwd a b ahi bhi fuel (besti, bestj, bestsize + 1)
        else (besti, bestj, bestsize)
      | _, _ => (besti, bestj, bestsize)
    else (besti, bestj, bestsize)

/-- `SequenceMatcher.find_longest_match` restricted to `[alo, ahi) × [blo, bhi)`. -/
def findLongestMatch (a b : List Char) (alo ahi blo bhi : Nat) : Nat × Nat × Nat :=
  let st := flmLoop a b alo ahi blo bhi
  let st := extendBack a b alo blo st.1 st
  extendFwd a b ahi bhi (ahi - (st.1 + st.2.2)) st

/-- Total size of all matching blocks (recursive splitting around each
longest match, as in `get_matching_blocks`); this is the `matches` count of
`ratio()`.  `fuel ≥ (ahi-alo)+(bhi-blo)+1` suffices since each recursion
strictly shrinks the combined range. -/
def matchSumF (a b : List Char) : Nat → Nat → Nat → Nat → Nat → Nat
  | 0, _, _, _, _ => 0
  | fuel + 1, alo, ahi, blo, bhi =>
    let r := findLongestMatch a b alo ahi blo bhi
    let i := r.1
    let j := r.2.1
    let k := r.2.2
    if k = 0 then 0
    else
      k + matchSumF a b fuel alo i blo j + matchSumF a b fuel (i + k) ahi (j + k) bhi

def smMatches (a b : List Char) : Nat :=
  matchSumF a b (a.length + b.length + 1) 0 a.length 0 b.length

/-- `SequenceMatcher(None, a, b).ratio() = 2*M/T` (`1.0` when both strings
are empty, per `_calculate_ratio`). -/
def smRatio (a b : List Char) : ℚ :=
  if a.length + b.length = 0 then 1
  else mkRat (2 * smMatches a b) (a.length + b.length)

example : smRatio "abc".data "abd".data = mkRat 2 3 := by decide
example : smRatio "breaking bad".data "breaking bad".data = 1 := by decide
example : smRatio "".data "".data = 1 := by decide
example : smRatio "abcd".data "bcde".data = mkRat 3 4 := by decide

/-!
### `score_similarity` (analyze_tv_mapping.py): Jaccard token overlap
-/

def pySplitAux : List Char → List Char → List (List Char)
  | [], acc => if acc = [] then [] else [acc.reverse]
  | c :: rest, acc =>
    if pythonSpace c then
      if acc = [] then pySplitAux rest [] else acc.reverse :: pySplitAux rest []
    else pySplitAux rest (c :: acc)

/-- Python `s.split()` with no argument: whitespace-separated tokens,
never producing empty tokens. -/
def pySplit (l : List Char) : List (List Char) := pySplitAux l []

/-- `score_similarity(a, b)` from `analyze_tv_mapping.py`: token lists
(the `if t` filter mirrors the comprehension), early 0.0 when either side
has no tokens, then `len(sa & sb) / len(sa | sb)` on the token sets
(0.0 when the union is empty). -/
def score_similarity (a b : List Char) : ℚ :=
  let at_ := (pySplit a).filter (fun t => t ≠ [])
  let bt := (pySplit b).filter (fun t => t ≠ [])
  if at_ = [] || bt = [] then 0
  else
    let sa := at_.toFinset
    let sb := bt.toFinset
    let inter := (sa ∩ sb).card
    let union := (sa ∪ sb).card
    if union = 0 then 0 else mkRat inter union

/-- Written from the spec's words: "token-set overlap ratio (intersection
size / union size)" between the token sets of two normalized titles. -/
def tokenSetOverlap (a b : List Char) : ℚ :=
  mkRat (((pySplit a).toFinset ∩ (pySplit b).toFinset).card : Int)
        (((pySplit a).toFinset ∪ (pySplit b).toFinset).card)

/-- The base score the series-resolution path actually computes
(`resolve_tmdb_tv_to_mlbd_url`): the larger of the two
`difflib.SequenceMatcher` ratios of the candidate's normalized title
against the normalized full and normalized base reference titles. -/
def candBaseScore (norm_mlbd normFull normBase : List Char) : ℚ :=
  qmax (smRatio norm_mlbd normFull) (smRatio norm_mlbd normBase)

example : score_similarity "money heist".data "money heist korea".data = mkRat 2 3 := by decide
example : score_similarity "".data "abc".data = 0 := by decide
example : candBaseScore "abc".data "abd".data "abd".data = mkRat 2 3 := by decide

/-!
### Candidate scoring in `resolve_tmdb_tv_to_mlbd_url`
-/

/-- A parsed search-result card (`div.movie-card`): whether it has a title
anchor, the anchor's `href` (may be empty for a missing attribute), the
anchor's display text (`get_text(strip=True)`), and the text of the
`span.type` tag if that tag exists. -/
structure Card where
  hasAnchor : Bool
  href : String
  title : String
  typeSpan : Option String
deriving DecidableEq

/-- A scored candidate dict.  The code also stores a `found_season` field,
but it is read from a stale local via `locals()` and used only for log
output, never in control flow, so it is not modelled. -/
structure Scored where
  href : String
  score : ℚ
  is_series : Bool
  title : String
  season_match : Bool
deriving DecidableEq

/-- Try `lit` then `\s*` then the capture `(\d+)` at the head of `l`
(no `\b` anywhere: this is the season-extraction pattern
`(?:season\s*|s\s*)(\d+)`); returns the captured number. -/
def litSpacesCapDigits (lit : List Char) (l : List Char) : Option Nat :=
  if lit.isPrefixOf l then
    let r1 := (l.drop lit.length).dropWhile pythonSpace
    let ds := r1.takeWhile isDigitChar
    if ds = [] then none
    else some (ds.foldl (fun n c => n * 10 + (c.toNat - '0'.toNat)) 0)
  else none

def seasonNumAt (l : List Char) : Option Nat :=
  match litSpacesCapDigits "season".data l with
  | some n => some n
  | none => litSpacesCapDigits "s".data l

/-- `re.search(r'(?:season\s*|s\s*)(\d+)', title_lower)`: leftmost match,
`season` alternative preferred at each position; returns `int(group(1))`. -/
def seasonNumSearch : List Char → Option Nat
  | [] => none
  | c :: rest =>
    match seasonNumAt (c :: rest) with
    | some n => some n
    | none => seasonNumSearch rest

/-- Generic `re.search` driver for a pattern starting with `\b` followed by
a word character: true when the head pattern matches at some position whose
preceding character is not a word character. -/
def searchBdry (matchAt : List Char → Bool) : Bool → List Char → Bool
  | _, [] => false
  | prevW, c :: rest =>
    (!prevW && matchAt (c :: rest)) || searchBdry matchAt (isWordChar c) rest

/-- `re.search(r"\bs\s*\d+\b", t) is not None`. -/
def sNumSearch (t : List Char) : Bool :=
  searchBdry (fun l => (litSpacesDigitsAt "s".data true l).isSome) false t

def isDashChar (c : Char) : Bool := c = '-' || c = '–'

/-- The body of `\b\d+\s*[-–]\s*\d+\b` tried at the head of the list (the
leading `\b` is handled by the search driver). -/
def epRangeAt (l : List Char) : Bool :=
  let d1 := l.takeWhile isDigitChar
  if d1 = [] then false
  else
    let r2 := (l.drop d1.length).dropWhile pythonSpace
    match r2 with
    | [] => false
    | c :: r3 =>
      if isDashChar c then
        let r4 := r3.dropWhile pythonSpace
        let d2 := r4.takeWhile isDigitChar
        if d2 = [] then false
        else
          match r4.drop d2.length with
          | [] => true
          | x :: _ => !isWordChar x
      else false

/-- `re.search(r"\b\d+\s*[-–]\s*\d+\b", t) is not None`. -/
def epRangeSearch (t : List Char) : Bool := searchBdry epRangeAt false t

/-- `'season' in t or re.search(r"\bs\s*\d+\b", t) is not None`. -/
def hasSeasonBlock (t : List Char) : Bool :=
  containsSub t "season".data || sNumSearch t

/-- `'episode' in t and re.search(r"\b\d+\s*[-–]\s*\d+\b", t) is not None`. -/
def hasEpisodeBatch (t : List Char) : Bool :=
  containsSub t "episode".data && epRangeSearch t

/-- `'bangla' in t or 'বাংলা' in t`. -/
def isBanglaDubbed (t : List Char) : Bool :=
  containsSub t "bangla".data || containsSub t "বাংলা".data

/-- `is_series_type`: the `span.type` text, stripped and lowered, equals
`"series"`; when the span is missing, fall back to `'/series/' in href`. -/
def isSeriesType (card : Card) : Bool :=
  match card.typeSpan with
  | some t => pyStrip (pyLower t.data) = "series".data
  | none => containsSub card.href.data "/series/".data

/-- The season-handling block: returns (score after this block,
`season_match`, `season_penalty`). -/
def seasonHandling (score : ℚ) (season : Nat) (title_lower : List Char)
    (is_bangla_dubbed : Bool) : ℚ × Bool × ℚ :=
  if hasSeasonBlock title_lower then
    match seasonNumSearch title_lower with
    | some found =>
      if found = season then (qadd score (mkRat 15 100), true, 0)
      else (score, false, mkRat 2 10)
    | none => (qadd score (mkRat 5 100), false, 0)
  else
    if season = 1 && is_bangla_dubbed then (qadd score (mkRat 1 10), false, 0)
    else (qadd score (mkRat 2 100), false, 0)

/-- Scoring of one card in `resolve_tmdb_tv_to_mlbd_url`, in the exact
order of the code: base score (max of the two SequenceMatcher ratios),
season handling, series-type boost, season-block-without-match boost,
episode-batch penalty, then subtraction of the season penalty.  `host` is
the host string used to absolutize a relative href (in the code this is
the stale loop variable, i.e. always the last search host). -/
def scoreCard (host : String) (normFull normBase : List Char) (season : Nat)
    (card : Card) : Scored :=
  let norm_mlbd := normalizeChars card.title.data
  let score1 := candBaseScore norm_mlbd normFull normBase
  let title_lower := pyLower card.title.data
  let step := seasonHandling score1 season title_lower (isBanglaDubbed title_lower)
  let score2 := step.1
  let season_match := step.2.1
  let season_penalty := step.2.2
  let score3 := if isSeriesType card then qadd score2 (mkRat 5 100) else score2
  let score4 :=
    if hasSeasonBlock title_lower && !season_match then qadd score3 (mkRat 3 100)
    else score3
  let score5 :=
    if hasEpisodeBatch title_lower then qsub score4 (mkRat 7 100) else score4
  let score6 := qsub score5 season_penalty
  { href := if "http".data.isPrefixOf card.href.data then card.href
            else host ++ card.href
    score := score6
    is_series := containsSub card.href.data "/series/".data || isSeriesType card
    title := card.title
    season_match := season_match }

example :
    (scoreCard "https://movielinkbd.shop" "breaking bad".data "breaking bad".data 1
      ⟨true, "/series/breaking-bad", "Breaking Bad Season 1", some "Series"⟩).score
    = mkRat 12 10 := by decide

example :
    (scoreCard "https://movielinkbd.shop" "breaking bad".data "breaking bad".data 1
      ⟨true, "/series/breaking-bad", "Breaking Bad Season 1", some "Series"⟩).href
    = "https://movielinkbd.shop/series/breaking-bad" := by decide

set_option maxRecDepth 8000

/-- Decimal values of the `mkRat` constants used by the embedding. -/
theorem mkRat_const_vals :
    (mkRat 15 100 : ℚ) = 0.15 ∧ (mkRat 5 100 : ℚ) = 0.05 ∧
    (mkRat 1 10 : ℚ) = 0.10 ∧ (mkRat 2 100 : ℚ) = 0.02 ∧
    (mkRat 3 100 : ℚ) = 0.03 ∧ (mkRat 7 100 : ℚ) = 0.07 ∧
    (mkRat 2 10 : ℚ) = 0.2 ∧ (mkRat 65 100 : ℚ) = 0.65 ∧
    (mkRat 5 10 : ℚ) = 0.50 := by
  refine ⟨?_, ?_, ?_, ?_, ?_, ?_, ?_, ?_, ?_⟩ <;>
    rw [Rat.mkRat_eq_div] <;> norm_num

/-- The final adjusted score as the claim states it: the base score plus
the listed additive adjustments and nothing else. -/
def claimAdjustedScore (normFull normBase : List Char) (season : Nat)
    (card : Card) : ℚ :=
  let tl := pyLower card.title.data
  let sn := seasonNumSearch tl
  let hsb := hasSeasonBlock tl
  candBaseScore (normalizeChars card.title.data) normFull normBase
  + (if isSeriesType card then (0.05 : ℚ) else 0)
  + (if hsb ∧ sn = some season then (0.15 : ℚ) else 0)
  + (if hsb ∧ sn = none then (0.05 : ℚ) else 0)
  + (if ¬hsb then (if season = 1 ∧ isBanglaDubbed tl then (0.10 : ℚ) else 0.02) else 0)
  + (if hsb ∧ sn ≠ some season then (0.03 : ℚ) else 0)
  - (if hasEpisodeBatch tl then (0.07 : ℚ) else 0)
  - (if hsb ∧ sn.isSome ∧ sn ≠ some season then (0.2 : ℚ) else 0)

theorem scoreCard_eq_claim (host : String) (normFull normBase : List Char)
    (season : Nat) (card : Card) :
    (scoreCard host normFull normBase season card).score
      = claimAdjustedScore normFull normBase season card := by
  obtain ⟨e15, e05, e10, e02, e03, e07, e20, -, -⟩ := mkRat_const_vals
  simp only [scoreCard, claimAdjustedScore, seasonHandling]
  by_cases hsb : hasSeasonBlock (pyLower card.title.data)
  · simp only [hsb, if_true, if_false, reduceIte]
    rcases hfs : seasonNumSearch (pyLower card.title.data) with _ | n
    · simp only [hfs, qadd_eq_add, qsub_eq_sub, e15, e05, e10, e02, e03, e07, e20]
      simp
      split_ifs <;> ring
    · by_cases hn : n = season
      · subst hn
        simp only [hfs, qadd_eq_add, qsub_eq_sub, e15, e05, e10, e02, e03, e07, e20]
        simp
        split_ifs <;> ring
      · simp only [hfs, qadd_eq_add, qsub_eq_sub, e15, e05, e10, e02, e03, e07, e20]
        simp [hn]
        split_ifs <;> ring
  · simp only [hsb, if_true, if_false, reduceIte, Bool.false_eq_true]
    simp only [qadd_eq_add, qsub_eq_sub, e15, e05, e10, e02, e03, e07, e20]
    simp
    split_ifs <;> ring

/-!
### The resolution run of `resolve_tmdb_tv_to_mlbd_url`

The code's `for card ...` loop is indented at the same level as the
`for host ...` loop, not inside it: for each query variant all hosts are
fetched first (each success overwriting `soup` and resetting
`candidates`), and only then does the card loop run, over whatever `soup`
last held.  `soup`, `candidates` and `best_overall` are plain function
locals, so they survive across query iterations; if no fetch ever
succeeded, the first use of `soup` raises `NameError`, which the outer
`except` turns into `return None`.  The embedding reproduces exactly this
control flow.  A fetch outcome is `none` for a request error or a
non-200 status, `some cards` for a parsed 200 response; `fetches[qi][hi]`
is the outcome for query variant `qi` on search host `hi` (the code has
two hosts; after the host loop the loop variable `host` always holds the
last host, which is what absolutizes relative hrefs in the card loop).
-/

/-- `query_variants = [q for q in [tmdb_title, title_base] if q]`:
no deduplication. -/
def apiQueryVariants (t : String) : List String :=
  ([t, base_title t]).filter (fun q => q ≠ "")

/-- The stale `host` loop variable used by the card loop: the last entry of
`search_hosts`. -/
def lastHost : String := "https://movielinkbd.shop"

/-- Rank for the primary sort key `not c['is_series']` (False < True). -/
def notSeriesRank (c : Scored) : Nat := if c.is_series then 0 else 1

/-- Strict "comes before" for the sort key `(not is_series, -score)`. -/
def keyLt (a b : Scored) : Bool :=
  notSeriesRank a < notSeriesRank b
  || (notSeriesRank a = notSeriesRank b && decide (b.score < a.score))

/-- Stable insertion: `x` goes after every element it does not strictly
precede, which is exactly the order of Python's stable `list.sort`. -/
def sortInsert (x : Scored) : List Scored → List Scored
  | [] => [x]
  | y :: ys => if keyLt x y then x :: y :: ys else y :: sortInsert x ys

/-- `candidates.sort(key=lambda c: (not c['is_series'], -c['score']))`. -/
def sortCands (l : List Scored) : List Scored :=
  l.foldl (fun acc x => sortInsert x acc) []

/-- The `best_overall` update:
`if (best_overall is None) or ((best['is_series'] and not
best_overall.get('is_series')) or (best['score'] >
best_overall.get('score', 0))): best_overall = best`. -/
def updateBestOverall (best_overall : Option Scored) (best : Scored) :
    Option Scored :=
  match best_overall with
  | none => some best
  | some bo =>
    if (best.is_series && !bo.is_series) || decide (bo.score < best.score)
    then some best else some bo

instance {ε α : Type} [DecidableEq ε] [DecidableEq α] : DecidableEq (Except ε α) :=
  fun a b =>
  match a, b with
  | .error x, .error y =>
    if h : x = y then isTrue (h ▸ rfl)
    else isFalse (fun hh => h (Except.error.inj hh))
  | .ok x, .ok y =>
    if h : x = y then isTrue (h ▸ rfl)
    else isFalse (fun hh => h (Except.ok.inj hh))
  | .error _, .ok _ => isFalse Except.noConfusion
  | .ok _, .error _ => isFalse Except.noConfusion

/-- The function-local mutable state of the run. -/
structure RunState where
  soup : Option (List Card)
  cands : List Scored
  best : Option Scored
deriving DecidableEq

/-- What the function returns: the chosen link and whether the final
return went through the sub-0.50 low-confidence branch. -/
structure ResolveResult where
  url : String
  lowConfidence : Bool
deriving DecidableEq

/-- One iteration of the card loop.  `Except.error href` models the
immediate `return best['href']` (series candidate with score ≥ 0.65 at the
top of the freshly sorted prefix).  The code's `if not candidates:
continue` sits right after the append and can never fire, so it is not
modelled. -/
def processCard (normFull normBase : List Char) (season : Nat)
    (st : RunState) (card : Card) : Except String RunState :=
  if !card.hasAnchor || card.href = "" then .ok st
  else
    let scored := scoreCard lastHost normFull normBase season card
    let sorted := sortCands (st.cands ++ [scored])
    match sorted with
    | [] => .ok { st with cands := sorted }
    | best :: _ =>
      if best.is_series && decide (mkRat 65 100 ≤ best.score)
      then .error best.href
      else .ok { st with cands := sorted, best := updateBestOverall st.best best }

/-- One query-variant iteration: the host loop (every successful fetch
overwrites `soup` and resets `candidates`), then the card loop over the
current `soup`.  `Except.error none` is the `NameError`-to-`None` path
(`soup` never assigned in the whole run); `Except.error (some r)` is the
immediate-accept return. -/
def processQuery (normFull normBase : List Char) (season : Nat)
    (st : RunState) (hostResps : List (Option (List Card))) :
    Except (Option ResolveResult) RunState :=
  let st1 := hostResps.foldl
    (fun acc r =>
      match r with
      | some cards => { acc with soup := some cards, cands := [] }
      | none => acc) st
  match st1.soup with
  | none => .error none
  | some cards =>
    match cards.foldlM (processCard normFull normBase season) st1 with
    | .error href => .error (some { url := href, lowConfidence := false })
    | .ok st2 => .ok st2

/-- The whole query loop, from the normalized reference titles on. -/
def resolveCore (tmdbTitle : String) (season : Nat)
    (fetches : List (List (Option (List Card)))) :
    Except (Option ResolveResult) RunState :=
  let normFull := normalizeChars tmdbTitle.data
  let normBase := normalizeChars (base_title tmdbTitle).data
  let queries := apiQueryVariants tmdbTitle
  (List.range queries.length).foldlM
    (fun st qi => processQuery normFull normBase season st (fetches.getD qi []))
    ⟨none, [], none⟩

/-- `resolve_tmdb_tv_to_mlbd_url` from the fetched TMDB title on: `None`
for an empty title, the immediate-accept link, `None` when nothing was
ever parsed, and otherwise `best_overall['href']` — returned in both the
`< 0.50` branch (flagged low-confidence) and the normal branch. -/
def resolveRun (tmdbTitle : String) (season : Nat)
    (fetches : List (List (Option (List Card)))) : Option ResolveResult :=
  if tmdbTitle = "" then none
  else
    match resolveCore tmdbTitle season fetches with
    | .error r => r
    | .ok st =>
      match st.best with
      | none => none
      | some b => some { url := b.href, lowConfidence := decide (b.score < mkRat 5 10) }

/-- Written from the C4 claim's words: every scored candidate of the
entire run (each query variant × each mirror's parsed result set), in
encounter order. -/
def specAllScored (tmdbTitle : String) (season : Nat)
    (fetches : List (List (Option (List Card)))) : List Scored :=
  let normFull := normalizeChars tmdbTitle.data
  let normBase := normalizeChars (base_title tmdbTitle).data
  (List.range (apiQueryVariants tmdbTitle).length).foldl
    (fun acc qi =>
      acc ++ (fetches.getD qi []).foldl
        (fun acc2 r =>
          match r with
          | some cards =>
            acc2 ++ (cards.filter (fun c => c.hasAnchor && c.href ≠ "")).map
              (scoreCard lastHost normFull normBase season)
          | none => acc2) [])
    []

/-- Written from the C4 claim's words: the single best candidate across
the entire run under "is-series descending, then score descending", with
the earliest-found winning among exactly equal keys (head of the stable
sort). -/
def specLexBest (tmdbTitle : String) (season : Nat)
    (fetches : List (List (Option (List Card)))) : Option Scored :=
  (sortCands (specAllScored tmdbTitle season fetches)).head?

/-! ### Concrete runs for the selector claims -/

def c3Good : Card := ⟨true, "/series/breaking-bad", "Breaking Bad Season 1", some "Series"⟩

def c3Bad : Card := ⟨true, "/movie/x", "Some Movie", some "Movie"⟩

/-- Query variant 1: mirror 1 returns the high-confidence series card,
mirror 2 returns an unrelated movie card; variant 2: both mirrors fail. -/
def c3Fetches : List (List (Option (List Card))) :=
  [[some [c3Good], some [c3Bad]], [none, none]]

/-- The first mirror's only (hence top-ranked) candidate is a series card
scoring 6/5 ≥ 0.65 — the immediate-accept condition — yet the run returns
the second mirror's movie link: all mirrors are fetched before any result
set is evaluated, and only the last mirror's set is ever scored. -/
theorem mirror_shortcircuit_code_bug :
    (scoreCard lastHost (normalizeChars "Breaking Bad".data)
        (normalizeChars (base_title "Breaking Bad").data) 1 c3Good).is_series = true
    ∧ mkRat 65 100 ≤ (scoreCard lastHost (normalizeChars "Breaking Bad".data)
        (normalizeChars (base_title "Breaking Bad").data) 1 c3Good).score
    ∧ resolveRun "Breaking Bad" 1 c3Fetches
        = some ⟨"https://movielinkbd.shop/movie/x", true⟩
    ∧ ("https://movielinkbd.shop/movie/x" : String)
        ≠ "https://movielinkbd.shop/series/breaking-bad" := by decide

def c4Series : Card := ⟨true, "/series/zzz", "Zzz Qqq", some "Series"⟩

def c4Movie : Card := ⟨true, "/movie/bb", "Breaking Bad", some "Movie"⟩

def c4Fetches : List (List (Option (List Card))) :=
  [[some [c4Series], none], [some [c4Movie], none]]

/-- Counterexample to C4 as stated: the run keeps a series candidate from
variant 1, then a higher-scoring non-series candidate from variant 2
displaces it, so the returned link is not the best under the
"is-series descending, then score descending" ordering. -/
theorem best_overall_not_lexicographic :
    resolveRun "Breaking Bad" 1 c4Fetches
      = some ⟨"https://movielinkbd.shop/movie/bb", false⟩
    ∧ (specLexBest "Breaking Bad" 1 c4Fetches).map Scored.href
      = some "https://movielinkbd.shop/series/zzz"
    ∧ (specLexBest "Breaking Bad" 1 c4Fetches).map Scored.is_series = some true
    ∧ ("https://movielinkbd.shop/movie/bb" : String)
      ≠ "https://movielinkbd.shop/series/zzz" := by decide

/-- Amended C4: the kept best-overall is replaced whenever the challenger
is series while the incumbent is not, or whenever the challenger's score
is strictly higher — in particular a non-series candidate with a strictly
higher score does displace a series incumbent. -/
theorem updateBestOverall_displacement (inc ch : Scored)
    (h1 : inc.is_series = true) (h2 : ch.is_series = false)
    (h3 : inc.score < ch.score) :
    updateBestOverall (some inc) ch = some ch := by
  simp [updateBestOverall, h3]

theorem updateBestOverall_displacement_witness :
    (⟨"/series/s", mkRat 1 2, true, "S", false⟩ : Scored).is_series = true
    ∧ (⟨"/movie/m", mkRat 3 4, false, "M", false⟩ : Scored).is_series = false
    ∧ (⟨"/series/s", mkRat 1 2, true, "S", false⟩ : Scored).score
        < (⟨"/movie/m", mkRat 3 4, false, "M", false⟩ : Scored).score
    ∧ updateBestOverall (some ⟨"/series/s", mkRat 1 2, true, "S", false⟩)
        ⟨"/movie/m", mkRat 3 4, false, "M", false⟩
        = some ⟨"/movie/m", mkRat 3 4, false, "M", false⟩ :=
  ⟨rfl, rfl, by decide,
    updateBestOverall_displacement _ _ rfl rfl (by decide)⟩

/-- C5: when the query loop finishes normally with some best-overall
candidate whose score is below 0.50, that candidate's link is still
returned, flagged low-confidence — never rejected. -/
theorem low_score_still_returned (t : String) (season : Nat)
    (fetches : List (List (Option (List Card)))) (st : RunState) (b : Scored)
    (h0 : t ≠ "") (h1 : resolveCore t season fetches = .ok st)
    (h2 : st.best = some b) (h3 : b.score < 0.50) :
    resolveRun t season fetches = some ⟨b.href, true⟩ := by
  obtain ⟨-, -, -, -, -, -, -, -, e50⟩ := mkRat_const_vals
  unfold resolveRun
  rw [if_neg h0, h1]
  dsimp only
  rw [h2]
  dsimp only
  have hd : decide (b.score < mkRat 5 10) = true := by
    rw [e50]; exact decide_eq_true h3
  rw [hd]

def c5Card : Card := ⟨true, "/movie/y", "Zzz", some "Movie"⟩

def c5Fetches : List (List (Option (List Card))) := [[some [c5Card], none]]

def c5Scored : Scored :=
  scoreCard lastHost (normalizeChars ":Movie".data)
    (normalizeChars (base_title ":Movie").data) 1 c5Card

def c5State : RunState := ⟨some [c5Card], [c5Scored], some c5Scored⟩

theorem low_score_still_returned_witness :
    (":Movie" : String) ≠ ""
    ∧ resolveCore ":Movie" 1 c5Fetches = .ok c5State
    ∧ c5State.best = some c5Scored
    ∧ c5Scored.score < 0.50
    ∧ resolveRun ":Movie" 1 c5Fetches = some ⟨c5Scored.href, true⟩ := by
  obtain ⟨-, -, -, -, -, -, -, -, e50⟩ := mkRat_const_vals
  have hlow : c5Scored.score < 0.50 := by
    rw [← e50]; decide
  exact ⟨by decide, by decide, by decide, hlow,
    low_score_still_returned ":Movie" 1 c5Fetches c5State c5Scored
      (by decide) (by decide) (by decide) hlow⟩

/-!
### C1: the base score of the resolution path vs. token-set overlap
-/

/-- Every token `s.split()` produces is nonempty. -/
theorem pySplitAux_mem_ne_nil (l : List Char) :
    ∀ acc, ∀ t ∈ pySplitAux l acc, t = acc.reverse ∧ acc ≠ [] ∨ t ≠ [] := by
  induction l with
  | nil =>
    intro acc t ht
    simp only [pySplitAux] at ht
    split at ht
    · simp at ht
    · rename_i hacc
      simp only [List.mem_singleton] at ht
      exact Or.inl ⟨ht, hacc⟩
  | cons c rest ih =>
    intro acc t ht
    simp only [pySplitAux] at ht
    split at ht
    · split at ht
      · rcases ih [] t ht with ⟨_, h⟩ | h
        · exact absurd rfl h
        · exact Or.inr h
      · rename_i hacc
        rcases List.mem_cons.mp ht with h | h
        · subst h
          exact Or.inr (by simpa using hacc)
        · rcases ih [] t h with ⟨_, hne⟩ | hne
          · exact absurd rfl hne
          · exact Or.inr hne
    · rcases ih (c :: acc) t ht with ⟨heq, -⟩ | hne
      · subst heq
        exact Or.inr (by simp)
      · exact Or.inr hne

theorem pySplit_mem_ne_nil (l : List Char) : ∀ t ∈ pySplit l, t ≠ [] := by
  intro t ht
  rcases pySplitAux_mem_ne_nil l [] t ht with ⟨-, h⟩ | h
  · exact absurd rfl h
  · exact h

theorem pySplit_filter_id (l : List Char) :
    (pySplit l).filter (fun t => t ≠ []) = pySplit l := by
  rw [List.filter_eq_self]
  intro t ht
  exact decide_eq_true (pySplit_mem_ne_nil l t ht)

theorem mkRat_zero_num (d : Nat) : (mkRat 0 d : ℚ) = 0 := by
  rw [Rat.mkRat_eq_div]
  simp

/-- Amended C1: the analysis tool's `score_similarity` is exactly the
token-set overlap ratio of the claim, while the resolution path's base
score is the larger of the two `difflib.SequenceMatcher` ratios. -/
theorem score_similarity_eq_tokenSetOverlap (a b : List Char) :
    score_similarity a b = tokenSetOverlap a b := by
  unfold score_similarity tokenSetOverlap
  rw [pySplit_filter_id, pySplit_filter_id]
  by_cases ha : pySplit a = []
  · simp [ha, mkRat_zero_num]
  · by_cases hb : pySplit b = []
    · simp [hb, mkRat_zero_num, Finset.inter_comm]
    · have hu : ((pySplit a).toFinset ∪ (pySplit b).toFinset).card ≠ 0 := by
        simp only [ne_eq, Finset.card_eq_zero, Finset.union_eq_empty,
          List.toFinset_eq_empty_iff]
        exact fun h => ha h.1
      simp [ha, hb, hu]

/-- Counterexample to C1 as stated: for candidate title `"abc"` and
reference title `"abd"` the resolution path's base score is the
SequenceMatcher value 2/3, while the token-set overlap ratio of the claim
is 0. -/
theorem base_score_not_token_overlap :
    candBaseScore (normalizeChars "abc".data) (normalizeChars "abd".data)
        (normalizeChars (base_title "abd").data) = mkRat 2 3
    ∧ qmax (tokenSetOverlap (normalizeChars "abc".data) (normalizeChars "abd".data))
        (tokenSetOverlap (normalizeChars "abc".data)
          (normalizeChars (base_title "abd").data)) = 0
    ∧ (mkRat 2 3 : ℚ) ≠ 0 := by decide

/-- Amended C1: `score_similarity` (analysis tool) is the token-set
overlap ratio; the series-resolution path's base score is the larger of
the two SequenceMatcher ratios. -/
theorem base_score_characterization :
    (∀ a b, score_similarity a b = tokenSetOverlap a b)
    ∧ (∀ nm nf nb, candBaseScore nm nf nb = max (smRatio nm nf) (smRatio nm nb)) :=
  ⟨score_similarity_eq_tokenSetOverlap, fun _ nf nb => qmax_eq_max _ _⟩

/-!
### C7: query-variant construction
-/

/-- The query builder of `analyze_tv_mapping.main`:
`for q in [name, title_base]: if q and q.lower() not in [qq.lower() for qq
in queries]: queries.append(q)`. -/
def buildQueriesAnalyze (name : String) : List String :=
  [name, base_title name].foldl
    (fun acc q =>
      if q ≠ "" && !((acc.map (fun s => pyLower s.data)).contains (pyLower q.data))
      then acc ++ [q] else acc) []

/-- Counterexample to C7 as stated: for a reference title whose base title
equals the full title, the API resolution path tries the same query twice
(no deduplication); the analysis tool is the one that deduplicates. -/
theorem api_variants_not_deduplicated :
    apiQueryVariants "Wednesday" = ["Wednesday", "Wednesday"]
    ∧ base_title "Wednesday" = "Wednesday"
    ∧ buildQueriesAnalyze "Wednesday" = ["Wednesday"] := by decide

/-- Amended C7: in the analysis tool the variant sequence is ordered (full
title, then base title) and deduplicated case-insensitively, so when the
base title case-insensitively equals the full title only one query is
tried; the API resolution path applies no deduplication. -/
theorem analyze_variants_deduplicated (name : String) (h0 : name ≠ "")
    (h : pyLower (base_title name).data = pyLower name.data) :
    buildQueriesAnalyze name = [name] := by
  have hb : base_title name ≠ "" := by
    intro hbe
    apply h0
    rw [hbe] at h
    have hnil : name.data = [] := by
      have hlen := congrArg List.length h
      simp only [pyLower, List.length_map] at hlen
      have : name.data.length = 0 := by simpa using hlen.symm
      exact List.eq_nil_of_length_eq_zero this
    cases name
    simp_all
  simp only [buildQueriesAnalyze, List.foldl, List.map_nil, List.contains,
    List.elem_nil, Bool.not_false, Bool.and_true, List.nil_append]
  rw [if_pos (decide_eq_true h0)]
  rw [if_neg]
  simp only [List.map_cons, List.map_nil, h, List.contains_cons]
  simp

theorem analyze_variants_deduplicated_witness :
    ("Wednesday" : String) ≠ ""
    ∧ pyLower (base_title "Wednesday").data = pyLower "Wednesday".data
    ∧ buildQueriesAnalyze "Wednesday" = ["Wednesday"] :=
  ⟨by decide, by decide,
    analyze_variants_deduplicated "Wednesday" (by decide) (by decide)⟩

/-!
### C8: search-cache TTL
-/

/-- `search_cache_ttl = 1800` (seconds; timestamps are `time.time()`
values, modelled as exact rationals). -/
def search_cache_ttl : ℚ := 1800

/-- `del search_cache[cache_key]`. -/
def cacheDel {α : Type} (c : List (String × ℚ × α)) (k : String) :
    List (String × ℚ × α) :=
  c.filter (fun e => e.1 ≠ k)

/-- `search_cache[cache_key] = {'data': d, 'timestamp': now}`
(dict update: at most one entry per key). -/
def cachePut {α : Type} (c : List (String × ℚ × α)) (k : String) (ts : ℚ)
    (d : α) : List (String × ℚ × α) :=
  (k, ts, d) :: cacheDel c k

/-- `get_cached_search_result`: a hit while `time.time() - timestamp <
search_cache_ttl`, otherwise `del search_cache[cache_key]` and a miss;
the second component is the cache as the access leaves it. -/
def get_cached_search_result {α : Type} (c : List (String × ℚ × α))
    (k : String) (now : ℚ) : Option α × List (String × ℚ × α) :=
  match List.lookup k c with
  | some (ts, d) =>
    if now - ts < search_cache_ttl then (some d, c) else (none, cacheDel c k)
  | none => (none, c)

theorem lookup_cacheDel_self {α : Type} (c : List (String × ℚ × α))
    (k : String) : List.lookup k (cacheDel c k) = none := by
  rw [List.lookup_eq_none_iff]
  intro p hp
  have hmem := List.of_mem_filter hp
  simp only [decide_eq_true_eq] at hmem
  simp only [bne_iff_ne, ne_eq]
  exact fun hk => hmem hk.symm

/-- C8: an entry written at time `T` is returned unchanged (cache
untouched) at every time strictly before `T + TTL`; at `T + TTL` or later
the access misses and lazily deletes the entry. -/
theorem search_cache_ttl_behavior {α : Type} (c : List (String × ℚ × α))
    (k : String) (d : α) (T now : ℚ) :
    (now < T + search_cache_ttl →
      get_cached_search_result (cachePut c k T d) k now
        = (some d, cachePut c k T d))
    ∧ (T + search_cache_ttl ≤ now →
      get_cached_search_result (cachePut c k T d) k now
        = (none, cacheDel (cachePut c k T d) k)
      ∧ List.lookup k (cacheDel (cachePut c k T d) k) = none) := by
  have hl : List.lookup k (cachePut c k T d) = some (T, d) := by
    simp [cachePut]
  constructor
  · intro hfresh
    simp only [get_cached_search_result, hl]
    rw [if_pos (by linarith)]
  · intro hexp
    simp only [get_cached_search_result, hl]
    rw [if_neg (by linarith)]
    exact ⟨rfl, lookup_cacheDel_self _ _⟩

theorem search_cache_ttl_behavior_witness :
    ((10 : ℚ) < 0 + search_cache_ttl)
    ∧ ((0 : ℚ) + search_cache_ttl ≤ 1800)
    ∧ get_cached_search_result (cachePut ([] : List (String × ℚ × Nat)) "q" 0 7) "q" 10
        = (some 7, cachePut [] "q" 0 7)
    ∧ get_cached_search_result (cachePut ([] : List (String × ℚ × Nat)) "q" 0 7) "q" 1800
        = (none, cacheDel (cachePut [] "q" 0 7) "q") := by
  have h1 : (10 : ℚ) < 0 + search_cache_ttl := by norm_num [search_cache_ttl]
  have h2 : (0 : ℚ) + search_cache_ttl ≤ 1800 := by norm_num [search_cache_ttl]
  exact ⟨h1, h2, (search_cache_ttl_behavior [] "q" 7 0 10).1 h1,
    ((search_cache_ttl_behavior [] "q" 7 0 1800).2 h2).1⟩

/-!
### C9: gate-page final-URL resolution
(`scrape_series_episode_for_watch_url` and
`scrape_movie_page_for_watch_url`, final-URL blocks)
-/

/-- The fetched gate page (`gw_soup` / `gw_resp`): the `content` attribute
of the first `meta http-equiv=refresh` tag if that tag exists (a missing
attribute reads as `""`), the `script.string` of each script tag (`""`
when the tag has no string), the response's resolved URL, and the base
host derived from the series URL. -/
structure GatePage where
  metaRefresh : Option String
  scripts : List String
  respUrl : String
  baseHost : String
deriving DecidableEq

/-- Suffix after the first occurrence of `pat` (`none` when absent). -/
def afterSub (pat : List Char) : List Char → Option (List Char)
  | [] => if pat.isPrefixOf ([] : List Char) then some [] else none
  | c :: rest =>
    if pat.isPrefixOf (c :: rest) then some ((c :: rest).drop pat.length)
    else afterSub pat rest

/-- Prefix up to the next occurrence of `pat`. -/
def upToSub (pat : List Char) : List Char → List Char
  | [] => []
  | c :: rest =>
    if pat.isPrefixOf (c :: rest) then [] else c :: upToSub pat rest

/-- `content.split('url=')[1]`: the segment between the first and second
occurrences of `'url='` (to the end when there is no second occurrence). -/
def splitUrlEqSecond (content : List Char) : List Char :=
  match afterSub "url=".data content with
  | some rem => upToSub "url=".data rem
  | none => []

/-- Strategy (a): the target of a meta-refresh tag
(`if 'url=' in content: watch_url = content.split('url=')[1]`). -/
def gateMetaTarget (page : GatePage) : Option String :=
  match page.metaRefresh with
  | some content =>
    if containsSub content.data "url=".data
    then some ⟨splitUrlEqSecond content.data⟩ else none
  | none => none

/-- The regex
`\"([^\"]*(watch|episode)[^\"]*)\"|\'([^\']*(watch|episode)[^\']*)\'`:
leftmost quoted span (double- or single-quoted, whichever opens at the
match position) whose body contains `watch` or `episode`; returns the
captured body. -/
def findQuotedWE : List Char → Option (List Char)
  | [] => none
  | c :: rest =>
    if c = '"' || c = '\'' then
      let content := rest.takeWhile (fun x => x ≠ c)
      if content.length < rest.length
          && (containsSub content "watch".data
              || containsSub content "episode".data)
      then some content
      else findQuotedWE rest
    else findQuotedWE rest

/-- Strategy (b): the first script whose string is truthy and mentions
`window.location` or `location.href`, and in which the quoted-URL regex
matches; scripts without a regex match are skipped (the loop only breaks
on a match). -/
def scriptScan : List String → Option String
  | [] => none
  | s :: rest =>
    if s ≠ "" && (containsSub s.data "window.location".data
        || containsSub s.data "location.href".data) then
      match findQuotedWE s.data with
      | some content => some ⟨content⟩
      | none => scriptScan rest
    else scriptScan rest

/-- Strategy (c): the response's own resolved URL when it contains a
`/watch/` or `/episode/` segment. -/
def gateUrlTarget (page : GatePage) : Option String :=
  if containsSub page.respUrl.data "/watch/".data
      || containsSub page.respUrl.data "/episode/".data
  then some page.respUrl else none

/-- What the gate block ends in: the structured failure dict, or a call to
`api_service.scrape_video_page(watch_url)`. -/
inductive GateOutcome where
  | failure (err : String)
  | scrape (url : String)
deriving DecidableEq

/-- Python truthiness of the `watch_url` variable (`None` and `""` are
both falsy). -/
def truthy : Option String → Bool
  | some s => s ≠ ""
  | none => false

/-- The final-URL block of `scrape_series_episode_for_watch_url`, with the
sequential `watch_url` re-assignments of the source: meta refresh, then
(if `watch_url` is falsy) the script scan, then (if still falsy) the
response URL, then either the structured failure or the scrape of the
(absolutized) watch URL. -/
def resolveGateFinalUrl (page : GatePage) : GateOutcome :=
  let w1 : Option String := gateMetaTarget page
  let w2 : Option String :=
    if truthy w1 then w1
    else
      match scriptScan page.scripts with
      | some u => some u
      | none => w1
  let w3 : Option String :=
    if truthy w2 then w2
    else
      if containsSub page.respUrl.data "/watch/".data
          || containsSub page.respUrl.data "/episode/".data
      then some page.respUrl else w2
  match w3 with
  | some u =>
    if u = "" then .failure "Could not resolve final watch URL"
    else .scrape (if "http".data.isPrefixOf u.data then u else page.baseHost ++ u)
  | none => .failure "Could not resolve final watch URL"

/-- Written from the claim's words: try the three strategies in order of
precedence (a meta-refresh target that is an actual URL — the code treats
an empty extracted target as falsy — then the script scan, then the
response URL). -/
def gateChainSpec (page : GatePage) : Option String :=
  match gateMetaTarget page with
  | some u =>
    if u = "" then
      match scriptScan page.scripts with
      | some v => some v
      | none => gateUrlTarget page
    else some u
  | none =>
    match scriptScan page.scripts with
    | some v => some v
    | none => gateUrlTarget page

theorem findQuotedWE_ne_nil (l : List Char) :
    ∀ c : List Char, findQuotedWE l = some c → c ≠ [] := by
  induction l with
  | nil => intro c h; simp [findQuotedWE] at h
  | cons a rest ih =>
    intro c h
    simp only [findQuotedWE] at h
    split at h
    · split at h
      · rename_i hcond
        injection h with h'
        subst h'
        intro hc
        rw [hc] at hcond
        simp [containsSub] at hcond
      · exact ih c h
    · exact ih c h

theorem scriptScan_ne_empty (ss : List String) :
    ∀ u : String, scriptScan ss = some u → u ≠ "" := by
  induction ss with
  | nil => intro u h; simp [scriptScan] at h
  | cons s rest ih =>
    intro u h
    simp only [scriptScan] at h
    split at h
    · rcases hf : findQuotedWE s.data with _ | content
      · rw [hf] at h
        exact ih u h
      · rw [hf] at h
        injection h with h'
        subst h'
        have hne := findQuotedWE_ne_nil s.data content hf
        intro he
        apply hne
        have : (⟨content⟩ : String).data = ("" : String).data := by rw [he]
        simpa using this
    · exact ih u h

theorem gate_three_strategies (page : GatePage) :
    resolveGateFinalUrl page =
      match gateChainSpec page with
      | some u =>
        GateOutcome.scrape
          (if "http".data.isPrefixOf u.data then u else page.baseHost ++ u)
      | none => GateOutcome.failure "Could not resolve final watch URL" := by
  unfold resolveGateFinalUrl gateChainSpec
  rcases hm : gateMetaTarget page with _ | u
  · simp only [truthy, Bool.false_eq_true, if_false, reduceIte]
    rcases hs : scriptScan page.scripts with _ | v
    · simp only [gateUrlTarget]
      by_cases hr : (containsSub page.respUrl.data "/watch/".data
          || containsSub page.respUrl.data "/episode/".data) = true
      · have hne : page.respUrl ≠ "" := by
          intro he
          rcases Bool.or_eq_true_iff.mp hr with h1 | h1 <;>
            (rw [he] at h1; simp [containsSub] at h1)
        simp [hr, hne]
      · simp [Bool.or_eq_true_iff] at hr
        simp [hr.1, hr.2]
    · have hv : v ≠ "" := scriptScan_ne_empty _ _ hs
      simp [truthy, hv]
  · by_cases hu : u = ""
    · subst hu
      rcases hs : scriptScan page.scripts with _ | v
      · simp only [hs, truthy, gateUrlTarget]
        by_cases hr : (containsSub page.respUrl.data "/watch/".data
            || containsSub page.respUrl.data "/episode/".data) = true
        · have hne : page.respUrl ≠ "" := by
            intro he
            rcases Bool.or_eq_true_iff.mp hr with h1 | h1 <;>
              (rw [he] at h1; simp [containsSub] at h1)
          simp [hr, hne]
        · simp [Bool.or_eq_true_iff] at hr
          simp [hr.1, hr.2]
      · have hv : v ≠ "" := scriptScan_ne_empty _ _ hs
        simp [hs, truthy, hv]
    · have ht : truthy (some u) = true := by simp [truthy, hu]
      simp [ht, hu]

/-- The movie-path regex `["\x27]([^"\x27]*watch[^"\x27]*)["\x27]`:
leftmost quoted span delimited by any quote character on either side
(the two delimiters need not match, and the body excludes both quote
kinds) whose body contains `watch` (never `episode`); returns the
captured body. -/
def findQuotedW : List Char → Option (List Char)
  | [] => none
  | c :: rest =>
    if c = '"' || c = '\'' then
      let content := rest.takeWhile (fun x => x ≠ '"' && x ≠ '\'')
      if content.length < rest.length && containsSub content "watch".data
      then some content
      else findQuotedW rest
    else findQuotedW rest

/-- The movie path's script loop: the first script whose string is truthy
and mentions `window.location` or `location.href`, and in which the
movie-path quoted-URL regex matches; scripts without a regex match are
skipped (the loop only breaks on a match). -/
def scriptScanMovie : List String → Option String
  | [] => none
  | s :: rest =>
    if s ≠ "" && (containsSub s.data "window.location".data
        || containsSub s.data "location.href".data) then
      match findQuotedW s.data with
      | some content => some ⟨content⟩
      | none => scriptScanMovie rest
    else scriptScanMovie rest

/-- The movie path's response-URL fallback: only a `/watch/` segment is
accepted (there is no `/episode/` check at line 2128). -/
def movieUrlTarget (page : GatePage) : Option String :=
  if containsSub page.respUrl.data "/watch/".data then some page.respUrl
  else none

/-- The final-URL block of `scrape_movie_page_for_watch_url` (lines
2104-2141), with the sequential `watch_url` re-assignments of the source:
the meta-refresh extraction first, then the script loop — which is NOT
guarded by `if not watch_url:` and therefore overwrites the meta target
whenever it matches — then (if `watch_url` is falsy) the `/watch/`
response-URL check, then either the movie path's structured failure or
the scrape of the watch URL absolutized against the hardcoded
`https://playk8.movielinkbd.sbs` host. -/
def resolveMovieGateFinalUrl (page : GatePage) : GateOutcome :=
  let w1 : Option String := gateMetaTarget page
  let w2 : Option String :=
    match scriptScanMovie page.scripts with
    | some u => some u
    | none => w1
  let w3 : Option String :=
    if truthy w2 then w2
    else if containsSub page.respUrl.data "/watch/".data then some page.respUrl
    else w2
  match w3 with
  | some u =>
    if u = "" then
      GateOutcome.failure "Could not find actual watch URL from getWatch page"
    else
      GateOutcome.scrape (if "http".data.isPrefixOf u.data then u
        else "https://playk8.movielinkbd.sbs" ++ u)
  | none => GateOutcome.failure "Could not find actual watch URL from getWatch page"

/-- Written from the amended claim's words for the movie path: the script
scan takes precedence over the meta-refresh target, an empty extracted
meta target is falsy, and the last resort is the `/watch/`-only
response-URL check. -/
def movieGateChainSpec (page : GatePage) : Option String :=
  match scriptScanMovie page.scripts with
  | some v => some v
  | none =>
    match gateMetaTarget page with
    | some u => if u = "" then movieUrlTarget page else some u
    | none => movieUrlTarget page

theorem findQuotedW_ne_nil (l : List Char) :
    ∀ c : List Char, findQuotedW l = some c → c ≠ [] := by
  induction l with
  | nil => intro c h; simp [findQuotedW] at h
  | cons a rest ih =>
    intro c h
    simp only [findQuotedW] at h
    split at h
    · split at h
      · rename_i hcond
        injection h with h'
        subst h'
        intro hc
        rw [hc] at hcond
        simp [containsSub] at hcond
      · exact ih c h
    · exact ih c h

theorem scriptScanMovie_ne_empty (ss : List String) :
    ∀ u : String, scriptScanMovie ss = some u → u ≠ "" := by
  induction ss with
  | nil => intro u h; simp [scriptScanMovie] at h
  | cons s rest ih =>
    intro u h
    simp only [scriptScanMovie] at h
    split at h
    · rcases hf : findQuotedW s.data with _ | content
      · rw [hf] at h
        exact ih u h
      · rw [hf] at h
        injection h with h'
        subst h'
        have hne := findQuotedW_ne_nil s.data content hf
        intro he
        apply hne
        have : (⟨content⟩ : String).data = ("" : String).data := by rw [he]
        simpa using this
    · exact ih u h

theorem gate_movie_characterization (page : GatePage) :
    resolveMovieGateFinalUrl page =
      match movieGateChainSpec page with
      | some u =>
        GateOutcome.scrape (if "http".data.isPrefixOf u.data then u
          else "https://playk8.movielinkbd.sbs" ++ u)
      | none =>
        GateOutcome.failure "Could not find actual watch URL from getWatch page"
    := by
  unfold resolveMovieGateFinalUrl movieGateChainSpec
  rcases hs : scriptScanMovie page.scripts with _ | v
  · rcases hm : gateMetaTarget page with _ | u
    · simp only [truthy, Bool.false_eq_true, if_false, reduceIte, movieUrlTarget]
      by_cases hr : containsSub page.respUrl.data "/watch/".data = true
      · have hne : page.respUrl ≠ "" := by
          intro he
          rw [he] at hr
          simp [containsSub] at hr
        simp [hr, hne]
      · simp [hr]
    · by_cases hu : u = ""
      · subst hu
        simp only [truthy, movieUrlTarget]
        by_cases hr : containsSub page.respUrl.data "/watch/".data = true
        · have hne : page.respUrl ≠ "" := by
            intro he
            rw [he] at hr
            simp [containsSub] at hr
          simp [hr, hne]
        · simp [hr]
      · have ht : truthy (some u) = true := by simp [truthy, hu]
        simp [ht, hu]
  · have hv : v ≠ "" := scriptScanMovie_ne_empty _ _ hs
    simp [truthy, hv]

/-- A gate page with both a meta-refresh target and a matching script:
the precedence counterexample. -/
def c9PrecPage : GatePage :=
  { metaRefresh := some "0;url=https://example.com/meta-target"
    scripts := ["window.location.href = \'/watch/script-target\';"]
    respUrl := "https://playk8.movielinkbd.sbs/other"
    baseHost := "https://movielinkbd.shop" }

/-- A gate page whose only lead is a script navigating to an `/episode/`
path. -/
def c9EpScriptPage : GatePage :=
  { metaRefresh := none
    scripts := ["location.href = \'/episode/e1\';"]
    respUrl := "https://h/other"
    baseHost := "https://h" }

/-- A gate page whose only lead is its own resolved `/episode/` URL. -/
def c9EpUrlPage : GatePage :=
  { metaRefresh := none
    scripts := []
    respUrl := "https://x/episode/5"
    baseHost := "https://x" }

/-- Counterexample to C9 as stated (the claim covers both cited gate
blocks): in `scrape_movie_page_for_watch_url` the script loop is not
guarded by `if not watch_url:`, so on a page carrying both leads the
script target overwrites the meta-refresh target — strategy (b) takes
precedence over (a), while the series block keeps (a); and the movie
block accepts only `watch`, never `episode`, in both its script regex and
its response-URL check, failing on pages the series block resolves. -/
theorem gate_movie_path_not_three_strategies :
    (gateMetaTarget c9PrecPage = some "https://example.com/meta-target"
      ∧ resolveMovieGateFinalUrl c9PrecPage =
          GateOutcome.scrape "https://playk8.movielinkbd.sbs/watch/script-target"
      ∧ resolveGateFinalUrl c9PrecPage =
          GateOutcome.scrape "https://example.com/meta-target")
    ∧ (resolveMovieGateFinalUrl c9EpScriptPage =
          GateOutcome.failure "Could not find actual watch URL from getWatch page"
      ∧ resolveGateFinalUrl c9EpScriptPage =
          GateOutcome.scrape "https://h/episode/e1")
    ∧ (resolveMovieGateFinalUrl c9EpUrlPage =
          GateOutcome.failure "Could not find actual watch URL from getWatch page"
      ∧ resolveGateFinalUrl c9EpUrlPage =
          GateOutcome.scrape "https://x/episode/5") := by decide

/-- Amended C9: the two gate blocks resolve differently. The series block
tries exactly three strategies in order of precedence — the meta-refresh
`url=` target, then a quoted span containing `watch` or `episode` inside
a navigation-referencing inline script, then the response's own URL when
it contains `/watch/` or `/episode/` — and fails with "Could not resolve
final watch URL". The movie block evaluates the meta-refresh target but
lets its unguarded script loop override it, so its script scan — which
accepts only `watch` and allows mismatched quote delimiters — takes
precedence over the meta target; its response-URL fallback accepts only
`/watch/`; and it fails with "Could not find actual watch URL from
getWatch page". In both blocks an empty extracted target is falsy and
falls through to the later strategies. -/
theorem gate_strategy_order (page : GatePage) :
    (resolveGateFinalUrl page =
      match gateChainSpec page with
      | some u =>
        GateOutcome.scrape
          (if "http".data.isPrefixOf u.data then u else page.baseHost ++ u)
      | none => GateOutcome.failure "Could not resolve final watch URL")
    ∧ (resolveMovieGateFinalUrl page =
      match movieGateChainSpec page with
      | some u =>
        GateOutcome.scrape (if "http".data.isPrefixOf u.data then u
          else "https://playk8.movielinkbd.sbs" ++ u)
      | none =>
        GateOutcome.failure "Could not find actual watch URL from getWatch page") :=
  ⟨gate_three_strategies page, gate_movie_characterization page⟩

/-!
### C10: cache keys (`get_cache_key` = MD5 hex digest of the key string)

MD5 per RFC 1321, over `Nat` with explicit `% 2^32`; `str.encode()` is
UTF-8.
-/

/-- UTF-8 bytes of one character. -/
def charUtf8 (c : Char) : List Nat :=
  let n := c.toNat
  if n < 0x80 then [n]
  else if n < 0x800 then [0xC0 + n / 0x40, 0x80 + n % 0x40]
  else if n < 0x10000 then
    [0xE0 + n / 0x1000, 0x80 + (n / 0x40) % 0x40, 0x80 + n % 0x40]
  else
    [0xF0 + n / 0x40000, 0x80 + (n / 0x1000) % 0x40,
     0x80 + (n / 0x40) % 0x40, 0x80 + n % 0x40]

def utf8Bytes (s : String) : List Nat := s.data.foldr (fun c acc => charUtf8 c ++ acc) []

/-- The 64 MD5 sine constants `floor(abs(sin(i+1)) * 2^32)`. -/
def md5K : List Nat :=
  [0xd76aa478, 0xe8c7b756, 0x242070db, 0xc1bdceee, 0xf57c0faf, 0x4787c62a, 0xa8304613, 0xfd469501,
   0x698098d8, 0x8b44f7af, 0xffff5bb1, 0x895cd7be, 0x6b901122, 0xfd987193, 0xa679438e, 0x49b40821,
   0xf61e2562, 0xc040b340, 0x265e5a51, 0xe9b6c7aa, 0xd62f105d, 0x02441453, 0xd8a1e681, 0xe7d3fbc8,
   0x21e1cde6, 0xc33707d6, 0xf4d50d87, 0x455a14ed, 0xa9e3e905, 0xfcefa3f8, 0x676f02d9, 0x8d2a4c8a,
   0xfffa3942, 0x8771f681, 0x6d9d6122, 0xfde5380c, 0xa4beea44, 0x4bdecfa9, 0xf6bb4b60, 0xbebfbc70,
   0x289b7ec6, 0xeaa127fa, 0xd4ef3085, 0x04881d05, 0xd9d4d039, 0xe6db99e5, 0x1fa27cf8, 0xc4ac5665,
   0xf4292244, 0x432aff97, 0xab9423a7, 0xfc93a039, 0x655b59c3, 0x8f0ccc92, 0xffeff47d, 0x85845dd1,
   0x6fa87e4f, 0xfe2ce6e0, 0xa3014314, 0x4e0811a1, 0xf7537e82, 0xbd3af235, 0x2ad7d2bb, 0xeb86d391]

/-- The per-round left-rotation amounts. -/
def md5S : List Nat :=
  [7, 12, 17, 22, 7, 12, 17, 22, 7, 12, 17, 22, 7, 12, 17, 22,
   5, 9, 14, 20, 5, 9, 14, 20, 5, 9, 14, 20, 5, 9, 14, 20,
   4, 11, 16, 23, 4, 11, 16, 23, 4, 11, 16, 23, 4, 11, 16, 23,
   6, 10, 15, 21, 6, 10, 15, 21, 6, 10, 15, 21, 6, 10, 15, 21]

def w32 : Nat := 4294967296

/-- Left-rotate a 32-bit word. -/
def rotl32 (x s : Nat) : Nat := (x * 2 ^ s) % w32 + x / 2 ^ (32 - s)

def not32 (x : Nat) : Nat := Nat.xor x 0xFFFFFFFF

/-- RFC 1321 padding: `0x80`, zeros to 56 mod 64, then the bit length as
a 64-bit little-endian quantity. -/
def md5Pad (msg : List Nat) : List Nat :=
  let n := msg.length
  let zeros := (55 + 64 - n % 64) % 64
  let bitLen := (8 * n) % (2 ^ 64)
  msg ++ [0x80] ++ List.replicate zeros 0
      ++ (List.range 8).map (fun i => bitLen / 2 ^ (8 * i) % 256)

/-- Split into 64-byte chunks (fuel-bounded; `fuel ≥ l.length/64 + 1`). -/
def chunks64 : Nat → List Nat → List (List Nat)
  | 0, _ => []
  | _ + 1, [] => []
  | fuel + 1, l => l.take 64 :: chunks64 fuel (l.drop 64)

/-- The sixteen little-endian message words of one chunk. -/
def chunkWords (chunk : List Nat) : List Nat :=
  (List.range 16).map (fun j =>
    chunk.getD (4 * j) 0 + chunk.getD (4 * j + 1) 0 * 256
      + chunk.getD (4 * j + 2) 0 * 65536 + chunk.getD (4 * j + 3) 0 * 16777216)

/-- One of the 64 MD5 rounds on state (A, B, C, D). -/
def md5Round (m : List Nat) (st : Nat × Nat × Nat × Nat) (i : Nat) :
    Nat × Nat × Nat × Nat :=
  let a := st.1
  let b := st.2.1
  let c := st.2.2.1
  let d := st.2.2.2
  let fg : Nat × Nat :=
    if i < 16 then (Nat.lor (Nat.land b c) (Nat.land (not32 b) d), i)
    else if i < 32 then (Nat.lor (Nat.land d b) (Nat.land (not32 d) c), (5 * i + 1) % 16)
    else if i < 48 then (Nat.xor b (Nat.xor c d), (3 * i + 5) % 16)
    else (Nat.xor c (Nat.lor b (not32 d)), (7 * i) % 16)
  let f := (fg.1 + a + md5K.getD i 0 + m.getD fg.2 0) % w32
  (d, (b + rotl32 f (md5S.getD i 0)) % w32, b, c)

/-- Process one 64-byte chunk. -/
def md5Chunk (st : Nat × Nat × Nat × Nat) (chunk : List Nat) :
    Nat × Nat × Nat × Nat :=
  let m := chunkWords chunk
  let r := (List.range 64).foldl (md5Round m) st
  ((st.1 + r.1) % w32, (st.2.1 + r.2.1) % w32,
   (st.2.2.1 + r.2.2.1) % w32, (st.2.2.2 + r.2.2.2) % w32)

def hexDigit (n : Nat) : Char :=
  if n < 10 then Char.ofNat ('0'.toNat + n) else Char.ofNat ('a'.toNat + n - 10)

/-- Hex of one 32-bit word, little-endian byte order. -/
def word32HexLE (x : Nat) : List Char :=
  (List.range 4).foldl
    (fun acc i => acc ++ [hexDigit (x / 2 ^ (8 * i) / 16 % 16), hexDigit (x / 2 ^ (8 * i) % 16)])
    []

/-- `hashlib.md5(s.encode()).hexdigest()`. -/
def md5hex (s : String) : String :=
  let msg := md5Pad (utf8Bytes s)
  let st := (chunks64 (msg.length / 64 + 1) msg).foldl md5Chunk
    (0x67452301, 0xefcdab89, 0x98badcfe, 0x10325476)
  ⟨word32HexLE st.1 ++ word32HexLE st.2.1 ++ word32HexLE st.2.2.1 ++ word32HexLE st.2.2.2⟩

/-- RFC 1321 test vectors (faithfulness check of the MD5 embedding). -/
theorem md5_rfc1321_vectors :
    md5hex "" = "d41d8cd98f00b204e9800998ecf8427e"
    ∧ md5hex "a" = "0cc175b9c0f1b6a831c399e269772661"
    ∧ md5hex "abc" = "900150983cd24fb0d6963f7d28e17f72"
    ∧ md5hex "message digest" = "f96b697d7cb7938d525a2f31aaf161d0" := by decide

/-- `get_cache_key(query, host)`:
`key_string = f"{query}:{host}" if host else query` (an empty host is
falsy and is treated like no host), then the MD5 hex digest. -/
def get_cache_key (query : String) (host : Option String) : String :=
  let key_string :=
    match host with
    | some h => if h = "" then query else query ++ ":" ++ h
    | none => query
  md5hex key_string

/-- Counterexample to C10 as stated ("for every pair of strings q and h"):
at `h = ""` the host is falsy, so the two keys hash different strings
(`"a:"` vs `"a"`) and differ. -/
theorem cache_key_alias_fails_empty_host :
    get_cache_key ("a" ++ ":" ++ "") none ≠ get_cache_key "a" (some "") := by decide

/-- Amended C10: for every query `q` and every nonempty host `h`, the key
of the single query string `q + ":" + h` with no host equals the key of
query `q` with host `h` — the two key classes alias. -/
theorem cache_key_alias (q h : String) (hh : h ≠ "") :
    get_cache_key (q ++ ":" ++ h) none = get_cache_key q (some h) := by
  simp [get_cache_key, hh]

theorem cache_key_alias_witness :
    ("https://movielinkbd.shop" : String) ≠ ""
    ∧ get_cache_key ("breaking bad" ++ ":" ++ "https://movielinkbd.shop") none
        = get_cache_key "breaking bad" (some "https://movielinkbd.shop") :=
  ⟨by decide, cache_key_alias "breaking bad" "https://movielinkbd.shop" (by decide)⟩

/-!
### C6: normalizer idempotence
-/

/-- Counterexample to C6 as stated: normalization is not idempotent in
general. On "season-3" the first pass turns the hyphen into a space,
yielding "season 3", which the second pass recognises as a season tag and
removes entirely. -/
theorem normalize_not_idempotent :
    normalize_title (normalize_title "season-3") ≠ normalize_title "season-3"
    ∧ normalize_title "season-3" = "season 3"
    ∧ normalize_title (normalize_title "season-3") = "" := by decide

/-- Generic: a map that fixes every member is the identity. -/
theorem map_id_of_mem {α : Type} (f : α → α) :
    ∀ l : List α, (∀ c ∈ l, f c = c) → l.map f = l := by
  intro l
  induction l with
  | nil => intro _; rfl
  | cons c rest ih =>
    intro h
    simp only [List.map_cons]
    rw [h c (List.mem_cons_self c rest), ih (fun x hx => h x (List.mem_cons_of_mem c hx))]

theorem punctMap_mem_keep (z : List Char) : ∀ c ∈ punctMap z, punctKeep c = true := by
  intro c hc
  rcases List.mem_map.mp hc with ⟨x, -, rfl⟩
  unfold punctChar
  by_cases hk : punctKeep x = true
  · rwa [if_pos hk]
  · rw [if_neg hk]; rfl

theorem collapseGo_mem (b : Bool) (l : List Char) :
    ∀ c ∈ collapseGo b l, c = ' ' ∨ (c ∈ l ∧ pythonSpace c = false) := by
  induction l generalizing b with
  | nil => intro c hc; simp [collapseGo] at hc
  | cons x rest ih =>
    intro c hc
    simp only [collapseGo] at hc
    by_cases hx : pythonSpace x = true
    · rw [if_pos hx] at hc
      rcases b with _ | _
      · simp only [if_neg (Bool.false_ne_true), List.mem_cons] at hc
        rcases hc with rfl | hc
        · exact Or.inl rfl
        · rcases ih true c hc with h | ⟨hm, hs⟩
          · exact Or.inl h
          · exact Or.inr ⟨List.mem_cons_of_mem x hm, hs⟩
      · simp only [if_pos rfl] at hc
        rcases ih true c hc with h | ⟨hm, hs⟩
        · exact Or.inl h
        · exact Or.inr ⟨List.mem_cons_of_mem x hm, hs⟩
    · rw [if_neg hx] at hc
      rcases List.mem_cons.mp hc with rfl | hc
      · exact Or.inr ⟨List.mem_cons_self c rest, Bool.not_eq_true _ ▸ (by simpa using hx)⟩
      · rcases ih false c hc with h | ⟨hm, hs⟩
        · exact Or.inl h
        · exact Or.inr ⟨List.mem_cons_of_mem x hm, hs⟩

theorem pyStrip_eq (l : List Char) :
    pyStrip l = List.rdropWhile pythonSpace (List.dropWhile pythonSpace l) := rfl

theorem pyStrip_subset (l : List Char) : ∀ c ∈ pyStrip l, c ∈ l := by
  intro c hc
  rw [pyStrip_eq] at hc
  have h1 := (List.rdropWhile_prefix pythonSpace (l := List.dropWhile pythonSpace l)).sublist.subset hc
  exact (List.dropWhile_suffix pythonSpace).sublist.subset h1

/-- Character-level invariant of normalizer output: lowercase alphanumeric
or a single space character. -/
theorem normalizeChars_mem (l : List Char) :
    ∀ c ∈ normalizeChars l, isLowerAlnum c = true ∨ c = ' ' := by
  intro c hc
  unfold normalizeChars at hc
  have h1 := pyStrip_subset _ c hc
  rcases collapseGo_mem false _ c h1 with h | ⟨hm, hs⟩
  · exact Or.inr h
  · have hk := punctMap_mem_keep _ c hm
    unfold punctKeep at hk
    rcases Bool.or_eq_true_iff.mp hk with h' | h'
    · exact Or.inl h'
    · rw [h'] at hs; cases hs

theorem isLowerAlnum_not_space (c : Char) (h : isLowerAlnum c = true) :
    pythonSpace c = false := by
  unfold pythonSpace
  simp only [Bool.or_eq_false_iff, decide_eq_false_iff_not]
  refine ⟨⟨⟨⟨⟨?_, ?_⟩, ?_⟩, ?_⟩, ?_⟩, ?_⟩ <;> (rintro rfl; exact absurd h (by decide))

theorem pyLowerChar_id (c : Char) (h : isLowerAlnum c = true ∨ c = ' ') :
    pyLowerChar c = c := by
  rcases h with h | rfl
  · unfold pyLowerChar
    rw [if_neg]
    intro hAB
    obtain ⟨h1, h2⟩ := Bool.and_eq_true_iff.mp hAB
    rw [decide_eq_true_eq] at h1 h2
    unfold isLowerAlnum at h
    rcases Bool.or_eq_true_iff.mp h with h' | h' <;>
      obtain ⟨h3, h4⟩ := Bool.and_eq_true_iff.mp h' <;>
      rw [decide_eq_true_eq] at h3 h4
    · exact absurd (le_trans h3 h2) (by decide)
    · exact absurd (le_trans h1 h4) (by decide)
  · decide

theorem pyStrip_idempotent (l : List Char) : pyStrip (pyStrip l) = pyStrip l := by
  rw [pyStrip_eq, pyStrip_eq]
  have h1 : List.dropWhile pythonSpace
      (List.rdropWhile pythonSpace (List.dropWhile pythonSpace l))
      = List.rdropWhile pythonSpace (List.dropWhile pythonSpace l) := by
    rw [List.dropWhile_eq_self_iff]
    intro hl
    have hpre : List.rdropWhile pythonSpace (List.dropWhile pythonSpace l)
        <+: List.dropWhile pythonSpace l := List.rdropWhile_prefix _ _
    have hlen : 0 < (List.dropWhile pythonSpace l).length :=
      lt_of_lt_of_le hl hpre.length_le
    have hget := hpre.getElem hl
    have hzero := List.dropWhile_get_zero_not pythonSpace l hlen
    intro hp
    apply hzero
    simp only [List.get_eq_getElem] at hzero ⊢
    rwa [← hget]
  rw [h1, List.rdropWhile_idempotent]

theorem yearSub_cons_ne (c : Char) (rest : List Char) (hc : c ≠ '(') :
    yearSub (c :: rest) = c :: yearSub rest := by
  have hcb : (c = '(') = False := by simp [hc]
  rcases rest with _ | ⟨d1, _ | ⟨d2, _ | ⟨d3, _ | ⟨d4, _ | ⟨cp, rem⟩⟩⟩⟩⟩ <;>
    simp [yearSub, hcb]

theorem yearSub_id (l : List Char) (h : ∀ c ∈ l, c ≠ '(') : yearSub l = l := by
  induction l with
  | nil => rfl
  | cons c rest ih =>
    rw [yearSub_cons_ne c rest (h c (List.mem_cons_self c rest))]
    rw [ih (fun x hx => h x (List.mem_cons_of_mem c hx))]

/-- Adjacent characters of normalized output are never both whitespace. -/
def noSpaceRun (l : List Char) : Prop :=
  List.Chain' (fun a b => ¬(pythonSpace a = true ∧ pythonSpace b = true)) l

theorem collapseGo_head_not_space_of_true (l : List Char) :
    ∀ c, (collapseGo true l).head? = some c → pythonSpace c = false := by
  induction l with
  | nil => intro c hc; simp [collapseGo] at hc
  | cons x rest ih =>
    intro c hc
    simp only [collapseGo] at hc
    by_cases hx : pythonSpace x = true
    · rw [if_pos hx] at hc
      simp only [if_true] at hc
      exact ih c hc
    · rw [if_neg hx] at hc
      simp only [List.head?_cons, Option.some.injEq] at hc
      subst hc
      exact Bool.not_eq_true _ ▸ (by simpa using hx)

theorem collapseGo_noSpaceRun (b : Bool) (l : List Char) :
    noSpaceRun (collapseGo b l) := by
  induction l generalizing b with
  | nil => simp [collapseGo, noSpaceRun]
  | cons x rest ih =>
    simp only [collapseGo]
    by_cases hx : pythonSpace x = true
    · rw [if_pos hx]
      rcases b with _ | _
      · simp only [if_neg (Bool.false_ne_true)]
        unfold noSpaceRun
        rw [List.chain'_cons']
        refine ⟨?_, ih true⟩
        intro y hy
        have := collapseGo_head_not_space_of_true rest y hy
        simp [this]
      · simp only [if_true]
        exact ih true
    · rw [if_neg hx]
      unfold noSpaceRun
      rw [List.chain'_cons']
      refine ⟨?_, ih false⟩
      intro y hy
      simp [Bool.not_eq_true _ ▸ (by simpa using hx : ¬pythonSpace x = true)]

theorem noSpaceRun_pyStrip (l : List Char) (h : noSpaceRun l) :
    noSpaceRun (pyStrip l) := by
  rw [pyStrip_eq]
  apply List.Chain'.prefix _ (List.rdropWhile_prefix _ _)
  exact List.Chain'.suffix h (List.dropWhile_suffix _)

/-- `collapseGo` is the identity on lists with no adjacent whitespace pair
whose whitespace is all `' '` — provided the flag is compatible with the
head. -/
theorem collapseGo_id (l : List Char) :
    ∀ b : Bool,
      (∀ c ∈ l, pythonSpace c = true → c = ' ') → noSpaceRun l →
      (b = true → ∀ c, l.head? = some c → pythonSpace c = false) →
      collapseGo b l = l := by
  induction l with
  | nil => intro b _ _ _; rfl
  | cons x rest ih =>
    intro b hsp hrun hhead
    simp only [collapseGo]
    by_cases hx : pythonSpace x = true
    · rcases b with _ | _
      · rw [if_pos hx]
        simp only [if_neg (Bool.false_ne_true)]
        have hxsp : x = ' ' := hsp x (List.mem_cons_self x rest) hx
        rw [ih true (fun c hc hs => hsp c (List.mem_cons_of_mem x hc) hs)
          (List.Chain'.tail hrun) ?_]
        · rw [hxsp]
        · intro _ c hc
          rcases rest with _ | ⟨y, rest'⟩
          · simp at hc
          · simp only [List.head?_cons, Option.some.injEq] at hc
            subst hc
            unfold noSpaceRun at hrun
            rw [List.chain'_cons] at hrun
            by_contra hcs
            exact hrun.1 ⟨hx, by simpa using hcs⟩
      · exact absurd (hhead rfl x (by simp)) (by simp [hx])
    · rw [if_neg hx]
      rw [ih false (fun c hc hs => hsp c (List.mem_cons_of_mem x hc) hs)
        (List.Chain'.tail hrun) (by intro h'; cases h')]




theorem noSpaceRun_strip_collapse (z : List Char) :
    noSpaceRun (pyStrip (collapseSpaces z)) :=
  noSpaceRun_pyStrip _ (collapseGo_noSpaceRun false z)

/-- Boolean form of `noSpaceRun` (an `Eq`-headed statement stops the
elaborator from whnf-evaluating the normalization pipeline). -/
def noSpaceRunB : List Char → Bool
  | [] => true
  | [_] => true
  | a :: b :: rest => !(pythonSpace a && pythonSpace b) && noSpaceRunB (b :: rest)

theorem noSpaceRunB_iff (l : List Char) : noSpaceRunB l = true ↔ noSpaceRun l := by
  induction l with
  | nil => simp [noSpaceRunB, noSpaceRun]
  | cons a rest ih =>
    cases rest with
    | nil => simp [noSpaceRunB, noSpaceRun]
    | cons b rest' =>
      unfold noSpaceRun at ih ⊢
      rw [List.chain'_cons]
      simp only [noSpaceRunB, Bool.and_eq_true, Bool.not_eq_true',
        Bool.and_eq_false_iff]
      rw [ih]
      constructor
      · rintro ⟨h1, h2⟩
        refine ⟨?_, h2⟩
        rintro ⟨ha, hb⟩
        rcases h1 with h | h
        · rw [ha] at h; cases h
        · rw [hb] at h; cases h
      · rintro ⟨h1, h2⟩
        refine ⟨?_, h2⟩
        by_cases ha : pythonSpace a = true
        · by_cases hb : pythonSpace b = true
          · exact absurd ⟨ha, hb⟩ h1
          · exact Or.inr (by simpa using hb)
        · exact Or.inl (by simpa using ha)

theorem noSpaceRunB_strip_collapse (z : List Char) :
    noSpaceRunB (pyStrip (collapseSpaces z)) = true :=
  (noSpaceRunB_iff _).mpr (noSpaceRun_strip_collapse z)

/-- Definitional expansion of one normalization pass (used to rewrite
syntactically, since whnf-evaluating the pipeline on a symbolic string is
infeasible). -/
theorem normalizeChars_expand (x : List Char) :
    normalizeChars x = pyStrip (collapseSpaces (punctMap (noiseFold (seasonSub
      (yearSub (pyStrip (pyLower x))))))) := rfl


theorem collapseSpaces_id (l : List Char)
    (hsp : ∀ c ∈ l, pythonSpace c = true → c = ' ')
    (hrun : noSpaceRunB l = true) :
    collapseSpaces l = l :=
  collapseGo_id l false hsp ((noSpaceRunB_iff l).mp hrun)
    (fun h => absurd h Bool.false_ne_true)

/-- Amended C6, list level: one normalization pass is idempotent on every
input whose normalized form is untouched by the season-tag and noise-word
removers (the two stages a second pass can still trigger after
punctuation stripping exposed a new token). -/
theorem normalizeChars_idem (l : List Char)
    (h1 : seasonSub (normalizeChars l) = normalizeChars l)
    (h2 : noiseFold (normalizeChars l) = normalizeChars l) :
    normalizeChars (normalizeChars l) = normalizeChars l := by
  have hmem := normalizeChars_mem l
  have hlower : pyLower (normalizeChars l) = normalizeChars l :=
    map_id_of_mem _ _ (fun c hc => pyLowerChar_id c (hmem c hc))
  have hstrip : pyStrip (normalizeChars l) = normalizeChars l := by
    rewrite [normalizeChars_expand l]
    exact pyStrip_idempotent _
  have hyear : yearSub (normalizeChars l) = normalizeChars l := by
    apply yearSub_id
    intro c hc
    rcases hmem c hc with h | rfl
    · rintro rfl
      exact absurd h (by decide)
    · decide
  have hpunct : punctMap (normalizeChars l) = normalizeChars l := by
    apply map_id_of_mem
    intro c hc
    unfold punctChar
    rw [if_pos]
    unfold punctKeep
    rcases hmem c hc with h | rfl
    · rw [h]; rfl
    · decide
  have hrun : noSpaceRunB (normalizeChars l) = true := by
    rewrite [normalizeChars_expand l]
    exact noSpaceRunB_strip_collapse
      (punctMap (noiseFold (seasonSub (yearSub (pyStrip (pyLower l))))))
  have hcollapse : collapseSpaces (normalizeChars l) = normalizeChars l := by
    apply collapseSpaces_id
    · intro c hc hs
      rcases hmem c hc with h | rfl
      · rw [isLowerAlnum_not_space c h] at hs
        cases hs
      · rfl
    · exact hrun
  rewrite [normalizeChars_expand (normalizeChars l)]
  rewrite [hlower, hstrip, hyear, h1, h2, hpunct, hcollapse]
  exact hstrip

theorem string_mk_data (d : List Char) : (String.mk d).data = d := rfl

/-- Amended C6: `normalize(normalize(x)) = normalize(x)` for every input
whose normalized form contains no residual season/episode tag and no
residual noise word; in general a second pass can strip further (see the
counterexample, where removing a hyphen exposes a season tag). -/
theorem normalize_title_idempotent_cond (s : String)
    (h1 : seasonSub (normalize_title s).data = (normalize_title s).data)
    (h2 : noiseFold (normalize_title s).data = (normalize_title s).data) :
    normalize_title (normalize_title s) = normalize_title s := by
  have hs : (normalize_title s).data = normalizeChars s.data :=
    string_mk_data (normalizeChars s.data)
  rewrite [hs] at h1 h2
  have h := normalizeChars_idem s.data h1 h2
  calc normalize_title (normalize_title s)
      = (⟨normalizeChars (normalize_title s).data⟩ : String) := rfl
    _ = (⟨normalizeChars (normalizeChars s.data)⟩ : String) := by
          rewrite [hs]; rfl
    _ = (⟨normalizeChars s.data⟩ : String) := by
          rewrite [h]; rfl
    _ = normalize_title s := rfl

theorem normalize_title_idempotent_cond_witness :
    seasonSub (normalize_title "Breaking Bad (2008) Season 2 720p").data
      = (normalize_title "Breaking Bad (2008) Season 2 720p").data
    ∧ noiseFold (normalize_title "Breaking Bad (2008) Season 2 720p").data
      = (normalize_title "Breaking Bad (2008) Season 2 720p").data
    ∧ normalize_title (normalize_title "Breaking Bad (2008) Season 2 720p")
      = normalize_title "Breaking Bad (2008) Season 2 720p" :=
  ⟨by decide, by decide,
    normalize_title_idempotent_cond "Breaking Bad (2008) Season 2 720p"
      (by decide) (by decide)⟩
